import Mathlib

/-!
Verification of the changebot commit-ingestion / release-reconciliation core.

The definitions below are a shallow embedding of the Convex backend in
`src/convex` (`commits.ts`, `releases.ts`, `releasesInternal.ts`,
`schema.ts`).  Database tables are modelled as Lean lists kept in creation
order (a Convex query without an explicit order returns ascending creation
order; `.order('desc')` reverses it).  Document ids are list indices.
External collaborators (the GitHub API and the OpenRouter summarization API)
are modelled as explicit oracle parameters.  JavaScript truthiness tests on
optional string fields (`!c.version`, `tagSha || null`) are embedded
faithfully: both `undefined` and the empty string count as falsy.
-/

namespace ChangeBot

/-- The `summaryStatus` union from `schema.ts`:
`v.union(v.literal('pending'), v.literal('completed'), v.literal('failed'))`. -/
inductive SummaryStatus where
  | pending
  | completed
  | failed
deriving DecidableEq, BEq

/-- One row of the `commits` table from `schema.ts`. -/
structure CommitRec where
  sha : String
  message : String
  title : Option String
  summary : Option String
  author : String
  authorEmail : String
  repository : String
  url : String
  timestamp : Int
  createdAt : Int
  summaryStatus : SummaryStatus
  version : Option String
deriving DecidableEq

/-- One row of the `releases` table from `schema.ts`. -/
structure ReleaseRec where
  version : String
  date : Int
  tagSha : String
  repository : String
deriving DecidableEq

/-- The two Convex tables, each in creation (insertion) order. -/
structure DB where
  commits : List CommitRec
  releases : List ReleaseRec
deriving DecidableEq

/-- JavaScript truthiness test `!c.version` used in
`getCommitsBetweenTags` (`releases.ts` line 127): an absent version and the
empty-string version are both falsy, i.e. "unset". -/
def versionUnset (c : CommitRec) : Bool :=
  match c.version with
  | none => true
  | some s => s == ""

/-- A commit "carries a version" exactly when the code's own unset test is
false. -/
def versionSet (c : CommitRec) : Bool := !(versionUnset c)

/-- Embedding of `releasesInternal.getReleasesByRepository`: all releases of
the repository, `.order('desc')`, i.e. newest creation first. -/
def getReleasesByRepository (db : DB) (repository : String) : List ReleaseRec :=
  (db.releases.filter (fun r => r.repository == repository)).reverse

/-- Embedding of `releasesInternal.getCommitsByRepository`: all commits of
the repository, `.order('desc')`. -/
def getCommitsByRepository (db : DB) (repository : String) : List CommitRec :=
  (db.commits.filter (fun c => c.repository == repository)).reverse

/-- The in-place `releases.sort((a, b) => b.date - a.date)` of
`getCommitsBetweenTags` (`releases.ts` line 102): a stable sort, descending
by `date`.  `List.mergeSort` is stable, matching the ECMAScript guarantee. -/
def sortReleasesByDateDesc (rs : List ReleaseRec) : List ReleaseRec :=
  rs.mergeSort (fun a b => decide (b.date ≤ a.date))

/-- The previous-tag computation of `getCommitsBetweenTags`
(`releases.ts` lines 102-106) combined with the `base = previousTagSha || ''`
collapse in `fetchCommitsBetweenTags` (line 53): the first release, in
date-descending order, whose `tagSha` differs from the current tag; an
empty-string `tagSha` is falsy and collapses to "no previous tag". -/
def previousTagSha (releases : List ReleaseRec) (currentTagSha : String) :
    Option String :=
  match (sortReleasesByDateDesc releases).find?
      (fun r => r.tagSha != currentTagSha) with
  | some r => if r.tagSha == "" then none else some r.tagSha
  | none => none

/-- Embedding of `getCommitsBetweenTags` (`releases.ts` lines 88-129).
`fetchBetween` is the external GitHub oracle standing for
`fetchCommitsBetweenTags`: given the previous tag (`none` means "no previous
tag", i.e. all commits reachable from the current tag) it returns the list
of commit SHAs of the compare/range query.  The `Set.has` membership test is
list membership. -/
def getCommitsBetweenTags (db : DB)
    (fetchBetween : Option String → List String)
    (currentTagSha repository : String) : List CommitRec :=
  let releases := getReleasesByRepository db repository
  let prev := previousTagSha releases currentTagSha
  let commitShas := fetchBetween prev
  let allCommits := getCommitsByRepository db repository
  allCommits.filter (fun c => commitShas.contains c.sha && versionUnset c)

/-- Embedding of `releasesInternal.createRelease`: look up an existing
release by the `by_version` index alone (note: no repository condition), and
either return its id or insert.  Ids are indices into the creation-ordered
list. -/
def createRelease (releases : List ReleaseRec)
    (version tagSha : String) (date : Int) (repository : String) :
    Nat × List ReleaseRec :=
  match releases.findIdx? (fun r => r.version == version) with
  | some i => (i, releases)
  | none =>
      (releases.length,
        releases ++ [{ version := version, date := date, tagSha := tagSha,
                       repository := repository }])

/-- Patch the first commit of the repository with the given sha (the
`.withIndex('by_repository').filter(sha).first()` lookup followed by
`ctx.db.patch(commit._id, \x7b version \x7d)` in `linkCommitsToVersion`);
when no commit matches, nothing changes. -/
def patchFirstVersion (commits : List CommitRec)
    (repository sha version : String) : List CommitRec :=
  match commits with
  | [] => []
  | c :: cs =>
      if c.repository == repository && c.sha == sha then
        { c with version := some version } :: cs
      else
        c :: patchFirstVersion cs repository sha version

/-- Embedding of `releasesInternal.linkCommitsToVersion`
(`releasesInternal.ts` lines 31-50): sequentially patch, for each sha in the
list, the first matching commit of the repository. -/
def linkCommitsToVersion (commits : List CommitRec)
    (version : String) (commitShas : List String) (repository : String) :
    List CommitRec :=
  commitShas.foldl
    (fun cs sha => patchFirstVersion cs repository sha version) commits

/-- The result shape of `releases.syncRelease`. -/
structure SyncResult where
  releaseId : Nat
  commitCount : Nat
deriving DecidableEq

/-- Embedding of `releases.syncRelease` (`releases.ts` lines 131-169).  The
`GITHUB_REPOSITORY` configuration is the `repository` argument; the GitHub
compare oracle is `fetchBetween`. -/
def syncRelease (db : DB) (fetchBetween : Option String → List String)
    (version sha : String) (date : Int) (repository : String) :
    SyncResult × DB :=
  let commits := getCommitsBetweenTags db fetchBetween sha repository
  let created := createRelease db.releases version sha date repository
  let commits2 :=
    linkCommitsToVersion db.commits version (commits.map (fun c => c.sha))
      repository
  ({ releaseId := created.1, commitCount := commits.length },
   { commits := commits2, releases := created.2 })

/-! ## JavaScript string primitives

JavaScript string processing is embedded over `List Char`.  JavaScript `\s`
and `String.prototype.trim` both mean Unicode whitespace;
`Char.isWhitespace` covers the characters that occur here. -/

/-- Whitespace as matched by the JavaScript `\s` class and `trim()`. -/
def jsWhitespace (c : Char) : Bool := c.isWhitespace

/-- JavaScript `String.prototype.trim`: drop whitespace from both ends. -/
def trimChars (l : List Char) : List Char :=
  ((l.dropWhile jsWhitespace).reverse.dropWhile jsWhitespace).reverse

/-- String-level wrapper of `trimChars`. -/
def jsTrim (s : String) : String := String.mk (trimChars s.data)

/-! ## Commit ingestion (`commits.saveCommits`) -/

/-- A raw commit event as validated by the `saveCommits` args
(`commits.ts` lines 188-201). -/
structure CommitEvent where
  sha : String
  message : String
  author : String
  authorEmail : String
  repository : String
  url : String
  timestamp : Int
deriving DecidableEq

/-- One per-commit outcome of `saveCommits`
(`\x7b sha, status, reason?, commitId? \x7d`). -/
structure SaveOutcome where
  sha : String
  status : String
  reason : Option String
  commitId : Option Nat
deriving DecidableEq

/-- Modelled from the spec: `commitsInternal.findBySha` is not under `src/`;
per §4.3 the pipeline "queries the Commit Store for an existing
`(repository, sha)` record", so this returns the first stored commit with
the given sha and repository. -/
def findBySha (commits : List CommitRec) (sha repository : String) :
    Option CommitRec :=
  commits.find? (fun c => c.sha == sha && c.repository == repository)

/-- Modelled from the spec: `commitsInternal.insert` is not under `src/`;
per §4.1 the store is a dumb persistence layer, so `insert` appends the
record and returns its id (the creation index). -/
def insertCommit (commits : List CommitRec) (c : CommitRec) :
    Nat × List CommitRec :=
  (commits.length, commits ++ [c])

/-- The record inserted for a new event by `saveCommits`
(`commits.ts` lines 251-258): the spread event plus
`summaryStatus: 'pending'` and `createdAt: Date.now()`. -/
def pendingRecordOfEvent (e : CommitEvent) (now : Int) : CommitRec :=
  { sha := e.sha, message := e.message, title := none, summary := none,
    author := e.author, authorEmail := e.authorEmail,
    repository := e.repository, url := e.url, timestamp := e.timestamp,
    createdAt := now, summaryStatus := SummaryStatus.pending,
    version := none }

/-- Embedding of `commits.saveCommits` (`commits.ts` lines 188-277):
process the events in order; a known `(repository, sha)` is skipped with
reason `already_exists`, a new one is inserted in `pending` state and a
summarization job for its id is scheduled.  Returns the outcomes, the new
store and the list of scheduled job ids (in scheduling order). -/
def saveCommits (commits : List CommitRec) (now : Int) :
    List CommitEvent → List SaveOutcome × List CommitRec × List Nat
  | [] => ([], commits, [])
  | e :: rest =>
    match findBySha commits e.sha e.repository with
    | some _ =>
        let t := saveCommits commits now rest
        ({ sha := e.sha, status := "skipped",
           reason := some "already_exists", commitId := none } :: t.1,
         t.2.1, t.2.2)
    | none =>
        let ins := insertCommit commits (pendingRecordOfEvent e now)
        let t := saveCommits ins.2 now rest
        ({ sha := e.sha, status := "saved", reason := none,
           commitId := some ins.1 } :: t.1,
         t.2.1, ins.1 :: t.2.2)

/-! ## Per-commit summarization (`commits.summarizeCommit`) -/

/-- Modelled from the spec: `commitsInternal.getById` is not under `src/`;
per §4.1 it is a plain lookup of the record with the given id. -/
def getById (commits : List CommitRec) (commitId : Nat) : Option CommitRec :=
  commits[commitId]?

/-- Modelled from the spec: `commitsInternal.updateSummary` is not under
`src/`; per §4.1 (`updateSummary(id, summary?, status)`) it patches the
record's `summary` and `summaryStatus` fields and nothing else. -/
def updateSummary (commits : List CommitRec) (commitId : Nat)
    (summary : Option String) (summaryStatus : SummaryStatus) :
    List CommitRec :=
  match commits[commitId]? with
  | none => commits
  | some c =>
      commits.set commitId
        { c with summary := summary, summaryStatus := summaryStatus }

/-- Embedding of `commits.summarizeCommit` (`commits.ts` lines 279-384).
The OpenRouter call is abstracted into `api`: `Except.ok content` stands for
a successful completion whose first choice has the given message content,
`Except.error e` for a failed call (rate limits exhausted or any other
non-success response).  A missing commit throws; an already-`completed`
commit returns `already_completed` without touching the store; an empty
trimmed content is an error, and any error path marks the commit `failed`
and rethrows. -/
def summarizeCommit (commits : List CommitRec) (commitId : Nat)
    (api : Except String String) :
    Except String (String × Option String) × List CommitRec :=
  match getById commits commitId with
  | none => (Except.error "Commit not found", commits)
  | some commit =>
      if commit.summaryStatus = SummaryStatus.completed then
        (Except.ok ("already_completed", none), commits)
      else
        match api with
        | Except.ok content =>
            let summary := jsTrim content
            if summary == "" then
              (Except.error "Empty summary returned from OpenRouter",
               updateSummary commits commitId none SummaryStatus.failed)
            else
              (Except.ok ("completed", some summary),
               updateSummary commits commitId (some summary)
                 SummaryStatus.completed)
        | Except.error e =>
            (Except.error e,
             updateSummary commits commitId none SummaryStatus.failed)

/-! ## OpenRouter retry loop (`callOpenRouter`) -/

/-- One HTTP response of the OpenRouter endpoint, as observed by
`callOpenRouter`: either `response.ok` with a parsed payload, or a
non-success status with its error text. -/
inductive ApiResp (α : Type) where
  | ok (payload : α)
  | err (status : Nat) (text : String)

/-- The `for (let attempt = 0; attempt <= retries; attempt++)` loop of
`callOpenRouter` (`commits.ts` lines 35-71), with the response of each
attempt given by the oracle `resp` and the performed `setTimeout` delays (in
milliseconds, `Math.pow(2, attempt) * 1000`) accumulated in order.  `fuel`
is the number of loop iterations still allowed (`retries + 1 - attempt`). -/
def callOpenRouterLoop {α : Type} (resp : Nat → ApiResp α) (retries : Nat) :
    Nat → Nat → List Nat → Except String (α × List Nat)
  | _, 0, _ => Except.error "OpenRouter API call failed after retries"
  | attempt, fuel + 1, waits =>
    match resp attempt with
    | ApiResp.ok p => Except.ok (p, waits)
    | ApiResp.err status text =>
        if status == 429 && attempt < retries then
          callOpenRouterLoop resp retries (attempt + 1) fuel
            (waits ++ [2 ^ attempt * 1000])
        else
          Except.error ("OpenRouter API error: " ++ toString status ++ " "
            ++ text)

/-- Embedding of `callOpenRouter` (`commits.ts` lines 25-74): a missing
`OPENROUTER_API_KEY` throws; otherwise the retry loop runs from attempt `0`
with `retries + 1` iterations available (the default retry count is 3).  The
result carries the successful payload together with the list of backoff
delays that were waited, in milliseconds. -/
def callOpenRouter {α : Type} (apiKey : Option String)
    (resp : Nat → ApiResp α) (retries : Nat := 3) :
    Except String (α × List Nat) :=
  match apiKey with
  | none =>
      Except.error "OPENROUTER_API_KEY environment variable is not set"
  | some _ => callOpenRouterLoop resp retries 0 (retries + 1) []

/-! ## Batch summarization: response parsing and title cleanup

The string processing of `batchSummarizeCommits` (`commits.ts` lines
76-186) builds on the JavaScript string primitives above. -/

/-- JavaScript `s.split('\n')[0]`: everything before the first newline. -/
def firstLineChars (l : List Char) : List Char :=
  l.takeWhile (fun c => c ≠ '\n')

/-- One application of `title.replace(/^[-•]\s*/, '')`: remove a single
leading `-` or `•` together with the whitespace run after it. -/
def stripLeadMarker : List Char → List Char
  | [] => []
  | c :: cs =>
      if c = '-' ∨ c = '•' then cs.dropWhile jsWhitespace else c :: cs

/-- The title post-processing of `batchSummarizeCommits` (`commits.ts`
lines 164-174): strip a leading marker, trim, keep the first line, trim,
strip a remaining leading marker, trim. -/
def cleanTitleChars (l : List Char) : List Char :=
  let t1 := trimChars (stripLeadMarker l)
  let t2 := trimChars (firstLineChars t1)
  trimChars (stripLeadMarker t2)

/-- String-level wrapper of `cleanTitleChars`. -/
def cleanTitle (s : String) : String :=
  String.mk (cleanTitleChars s.data)

/-- Everything up to (not including) the first occurrence of `pat`;
`none` when `pat` does not occur.  This is the lazy capture group
`([\s\S]*?)` followed by the literal close fence. -/
def upToFirst (pat : List Char) : List Char → Option (List Char)
  | [] => if pat.isPrefixOf ([] : List Char) then some [] else none
  | c :: cs =>
      if pat.isPrefixOf (c :: cs) then some []
      else (upToFirst pat cs).map (fun l => c :: l)

/-- Whether `pat` occurs as a contiguous substring. -/
def hasSubstr (pat : List Char) (l : List Char) : Bool :=
  (upToFirst pat l).isSome

/-- One attempt of the fence regex
`/\x60\x60\x60(?:json)?\n([\s\S]*?)\n\x60\x60\x60/` at the current position:
the open fence, then the `json` branch before the empty branch of the
optional group (each requiring a newline and a closing fence), returning the
captured group. -/
def fenceMatchAt (l : List Char) : Option (List Char) :=
  if "```".data.isPrefixOf l then
    let rest := l.drop 3
    match
      (if "json\n".data.isPrefixOf rest then
        upToFirst "\n```".data (rest.drop 5)
      else none) with
    | some cap => some cap
    | none =>
        if "\n".data.isPrefixOf rest then upToFirst "\n```".data (rest.drop 1)
        else none
  else none

/-- Leftmost match of the fence regex: try each start position in order. -/
def firstFenceMatch : List Char → Option (List Char)
  | [] => none
  | c :: cs =>
      match fenceMatchAt (c :: cs) with
      | some cap => some cap
      | none => firstFenceMatch cs

/-- The markdown-fence stripping of `batchSummarizeCommits` (`commits.ts`
lines 151-158): when the trimmed response starts with a fence and the regex
matches, the captured group replaces the text; otherwise the text is kept. -/
def stripFence (l : List Char) : List Char :=
  if "```".data.isPrefixOf l then
    match firstFenceMatch l with
    | some cap => cap
    | none => l
  else l

/-- The content-handling prefix of `batchSummarizeCommits` (`commits.ts`
lines 145-158): trim the model content, reject an empty result, strip a
markdown fence.  The returned string is exactly what reaches
`JSON.parse`. -/
def parseBatchContent (content : String) : Except String String :=
  let summaryText := jsTrim content
  if summaryText == "" then
    Except.error "Empty response returned from OpenRouter"
  else Except.ok (String.mk (stripFence summaryText.data))

/-- One parsed batch-summary entry (`\x7b title, description \x7d`). -/
structure TitleDesc where
  title : String
  description : String
deriving DecidableEq

/-- Embedding of the parse-and-clean tail of `batchSummarizeCommits`
(`commits.ts` lines 145-186).  `jsonParse` is the abstract `JSON.parse`
oracle: `none` models a thrown `SyntaxError` (unparsable JSON), `some m` the
parsed object as an association list in key order.  On success every entry's
title is cleaned up. -/
def batchSummarizeCommits (jsonParse : String → Option (List (String × TitleDesc)))
    (content : String) : Except String (List (String × TitleDesc)) :=
  match parseBatchContent content with
  | Except.error e => Except.error e
  | Except.ok jsonText =>
      match jsonParse jsonText with
      | none =>
          Except.error "Failed to parse JSON response from OpenRouter"
      | some summaries =>
          Except.ok (summaries.map
            (fun kv => (kv.1, { kv.2 with title := cleanTitle kv.2.title })))

/-! ## Bulk regeneration (`commits.regenerateAllCommits`) -/

/-- A commit fetched from GitHub by `fetchAllCommitsFromGitHub`, already in
the transformed shape of `commits.ts` lines 489-497 (its `repository` field
is the configured repository, so it is not repeated here). -/
structure FetchedCommit where
  sha : String
  message : String
  author : String
  authorEmail : String
  url : String
  timestamp : Int
deriving DecidableEq

/-- Modelled from the spec: `commitsInternal.deleteAll` is not under `src/`;
per §8 ("after `deleteAllForRepository`, the store contains zero records for
that repository; records for other repositories are untouched") and §4.3
("wipes the entire per-repository Commit Store") it removes exactly the
configured repository's commit records and reports how many it deleted. -/
def deleteAllForRepository (commits : List CommitRec) (repository : String) :
    Nat × List CommitRec :=
  ((commits.filter (fun c => c.repository == repository)).length,
   commits.filter (fun c => !(c.repository == repository)))

/-- JavaScript `commit.sha.substring(0, 7)`: the short-sha batch key. -/
def shortSha (sha : String) : String := String.mk (sha.data.take 7)

/-- The record inserted by step 4 of `regenerateAllCommits` (`commits.ts`
lines 574-589) for one fetched commit and its optional batch summary. -/
def regeneratedRecord (repository : String) (now : Int) (c : FetchedCommit)
    (summaryData : Option TitleDesc) : CommitRec :=
  { sha := c.sha, message := c.message,
    title := summaryData.map (fun s => s.title),
    summary := summaryData.map (fun s => s.description),
    author := c.author, authorEmail := c.authorEmail,
    repository := repository, url := c.url, timestamp := c.timestamp,
    createdAt := now,
    summaryStatus :=
      match summaryData with
      | some _ => SummaryStatus.completed
      | none => SummaryStatus.failed,
    version := none }

/-- Step 4 of `regenerateAllCommits` (`commits.ts` lines 564-616): insert
each fetched commit with its looked-up summary, counting saves and
collecting a per-sha error for each commit missing from the batch
response.  Returns `(saved, errors, store)`. -/
def regenerateSaveLoop (summaries : List (String × TitleDesc))
    (repository : String) (now : Int) :
    List FetchedCommit → List CommitRec →
      Nat × List (String × String) × List CommitRec
  | [], commits => (0, [], commits)
  | c :: rest, commits =>
      let summaryData :=
        (summaries.find? (fun kv => kv.1 == shortSha c.sha)).map
          (fun kv => kv.2)
      let ins := insertCommit commits (regeneratedRecord repository now c summaryData)
      let t := regenerateSaveLoop summaries repository now rest ins.2
      match summaryData with
      | some _ => (t.1 + 1, t.2.1, t.2.2)
      | none =>
          (t.1, (c.sha, "Summary not found in batch response") :: t.2.1,
           t.2.2)

/-- The result shape of `regenerateAllCommits`. -/
structure RegenResult where
  deleted : Nat
  fetched : Nat
  saved : Nat
  errors : List (String × String)
deriving DecidableEq

/-- Embedding of `commits.regenerateAllCommits` (`commits.ts` lines
500-632).  `repositoryEnv` is `GITHUB_REPOSITORY`; `fetchedCommits` is the
oracle for `fetchAllCommitsFromGitHub`; `jsonParse` and `batchContent` feed
`batchSummarizeCommits` as above.  A missing repository configuration
throws; a failed batch summarization is caught, recorded under the sha
`"batch"` and leaves the summary map empty; step 4 then inserts every
fetched commit. -/
def regenerateAllCommits (commits : List CommitRec)
    (repositoryEnv : Option String) (fetchedCommits : List FetchedCommit)
    (jsonParse : String → Option (List (String × TitleDesc)))
    (batchContent : String) (now : Int) :
    Except String (RegenResult × List CommitRec) :=
  match repositoryEnv with
  | none =>
      Except.error "GITHUB_REPOSITORY environment variable is not set"
  | some repository =>
      let del := deleteAllForRepository commits repository
      let batch :=
        if fetchedCommits.length > 0 then
          match batchSummarizeCommits jsonParse batchContent with
          | Except.ok s => (s, ([] : List (String × String)))
          | Except.error e => ([], [("batch", e)])
        else ([], [])
      let step4 :=
        regenerateSaveLoop batch.1 repository now fetchedCommits del.2
      Except.ok
        ({ deleted := del.1, fetched := fetchedCommits.length,
           saved := step4.1, errors := batch.2 ++ step4.2.1 },
         step4.2.2)

/-! ## Concrete sample data for instantiating theorems -/

/-- A concrete commit record with a chosen status and version, used to
instantiate theorems on concrete inputs. -/
def sampleCommit (status : SummaryStatus) (version : Option String) :
    CommitRec :=
  { sha := "abc1234def", message := "fix: null pointer", title := none,
    summary := none, author := "Ann", authorEmail := "ann@example.com",
    repository := "owner/repo", url := "https://example.com/c",
    timestamp := 100, createdAt := 200, summaryStatus := status,
    version := version }

/-! ## Helper lemmas -/

theorem findIdxQ_append_singleton {α : Type} (p : α → Bool) (l : List α)
    (a : α) (h : ∀ x ∈ l, p x = false) (ha : p a = true) :
    ∀ i, List.findIdx? p (l ++ [a]) i = some (i + l.length) := by
  induction l with
  | nil =>
      intro i
      simp [List.findIdx?_cons, ha]
  | cons x xs ih =>
      intro i
      have hx : p x = false := h x (List.mem_cons_self x xs)
      have hxs : ∀ y ∈ xs, p y = false := fun y hy => h y (List.mem_cons_of_mem x hy)
      have hih := ih hxs (i + 1)
      rw [List.cons_append, List.findIdx?_cons, if_neg (by simp [hx]), hih]
      congr 1
      simp only [List.length_cons]
      omega

theorem mem_trimChars {c : Char} {l : List Char} (h : c ∈ trimChars l) :
    c ∈ l := by
  unfold trimChars at h
  rw [List.mem_reverse] at h
  have h2 := (List.dropWhile_sublist jsWhitespace).mem h
  rw [List.mem_reverse] at h2
  exact (List.dropWhile_sublist jsWhitespace).mem h2

theorem mem_stripLeadMarker {c : Char} {l : List Char}
    (h : c ∈ stripLeadMarker l) : c ∈ l := by
  cases l with
  | nil => simp [stripLeadMarker] at h
  | cons x xs =>
      by_cases hx : x = '-' ∨ x = '•'
      · rw [show stripLeadMarker (x :: xs) = xs.dropWhile jsWhitespace from by
            simp [stripLeadMarker, hx]] at h
        exact List.mem_cons_of_mem x
          ((List.dropWhile_sublist jsWhitespace).mem h)
      · rw [show stripLeadMarker (x :: xs) = x :: xs from by
            simp [stripLeadMarker, hx]] at h
        exact h

/-! ## Claim theorems -/

/-- C10: `createRelease` checks for an existing release by the version
string alone, ignoring the repository argument: when no release with the
version exists, a first call inserts one and a second call with the same
version but a different repository returns the first call's release id and
inserts no new record, so at most one release record exists per version
string across all repositories. -/
theorem createRelease_keyed_by_version_only (releases : List ReleaseRec)
    (version tagShaA tagShaB : String) (dateA dateB : Int)
    (repoA repoB : String) (h : ∀ r ∈ releases, r.version ≠ version) :
    (createRelease releases version tagShaA dateA repoA).1
        = releases.length ∧
    (createRelease releases version tagShaA dateA repoA).2
        = releases ++ [{ version := version, date := dateA,
                         tagSha := tagShaA, repository := repoA }] ∧
    (createRelease (createRelease releases version tagShaA dateA repoA).2
        version tagShaB dateB repoB)
      = ((createRelease releases version tagShaA dateA repoA).1,
         (createRelease releases version tagShaA dateA repoA).2) ∧
    (((createRelease releases version tagShaA dateA repoA).2).filter
        (fun r => r.version == version)).length = 1 := by
  have hfalse : ∀ r ∈ releases, (r.version == version) = false := by
    intro r hr
    exact beq_eq_false_iff_ne.mpr (h r hr)
  have hnone :
      List.findIdx? (fun r : ReleaseRec => r.version == version) releases
        = none :=
    List.findIdx?_eq_none_iff.mpr hfalse
  have hfirst :
      createRelease releases version tagShaA dateA repoA
        = (releases.length,
           releases ++ [{ version := version, date := dateA,
                          tagSha := tagShaA, repository := repoA }]) := by
    unfold createRelease
    rw [hnone]
  have hfind2 :
      List.findIdx? (fun r : ReleaseRec => r.version == version)
        (releases ++ [{ version := version, date := dateA,
                        tagSha := tagShaA, repository := repoA }])
        = some releases.length := by
    have := findIdxQ_append_singleton
      (fun r : ReleaseRec => r.version == version) releases
      { version := version, date := dateA, tagSha := tagShaA,
        repository := repoA } hfalse (by simp) 0
    simpa using this
  refine ⟨by rw [hfirst], by rw [hfirst], ?_, ?_⟩
  · rw [hfirst]
    unfold createRelease
    rw [hfind2]
  · rw [hfirst]
    rw [List.filter_append, List.filter_eq_nil_iff.mpr (by
      intro r hr
      simp [hfalse r hr])]
    simp

/-- C10 witness: a concrete instantiation with an empty release store and
two repositories sharing a version string. -/
theorem createRelease_keyed_by_version_only_witness :
    (createRelease [] "v1.0" "aaa" 10 "o/r1").1 = ([] : List ReleaseRec).length ∧
    (createRelease [] "v1.0" "aaa" 10 "o/r1").2
        = [] ++ [{ version := "v1.0", date := 10, tagSha := "aaa",
                   repository := "o/r1" }] ∧
    (createRelease (createRelease [] "v1.0" "aaa" 10 "o/r1").2
        "v1.0" "bbb" 20 "o/r2")
      = ((createRelease [] "v1.0" "aaa" 10 "o/r1").1,
         (createRelease [] "v1.0" "aaa" 10 "o/r1").2) ∧
    (((createRelease [] "v1.0" "aaa" 10 "o/r1").2).filter
        (fun r => r.version == "v1.0")).length = 1 :=
  createRelease_keyed_by_version_only [] "v1.0" "aaa" "bbb" 10 20
    "o/r1" "o/r2" (by simp)

/-- C3: ingesting the same commit event twice against an initially empty
store yields `saved` (with the new record's id) then `skipped` with reason
`already_exists`; afterwards the store holds exactly one record for that
`(repository, sha)` pair, and the second ingestion performs no insert and
schedules no summarization job. -/
theorem saveCommits_idempotent (e : CommitEvent) (now now2 : Int) :
    (saveCommits [] now [e]).1
        = [{ sha := e.sha, status := "saved", reason := none,
             commitId := some 0 }] ∧
    (saveCommits [] now [e]).2.1 = [pendingRecordOfEvent e now] ∧
    (saveCommits [] now [e]).2.2 = [0] ∧
    (saveCommits (saveCommits [] now [e]).2.1 now2 [e]).1
        = [{ sha := e.sha, status := "skipped",
             reason := some "already_exists", commitId := none }] ∧
    (saveCommits (saveCommits [] now [e]).2.1 now2 [e]).2.1
        = (saveCommits [] now [e]).2.1 ∧
    (saveCommits (saveCommits [] now [e]).2.1 now2 [e]).2.2 = [] ∧
    (((saveCommits (saveCommits [] now [e]).2.1 now2 [e]).2.1).filter
        (fun c => c.sha == e.sha && c.repository == e.repository)).length
      = 1 := by
  have hfind :
      findBySha [pendingRecordOfEvent e now] e.sha e.repository
        = some (pendingRecordOfEvent e now) := by
    simp [findBySha, pendingRecordOfEvent, List.find?_cons]
  refine ⟨?_, ?_, ?_, ?_, ?_, ?_, ?_⟩ <;>
    simp [saveCommits, findBySha, insertCommit, hfind, pendingRecordOfEvent]

/-- C4 evidence: the retry loop with a rate-limit response on the first two
attempts and a success on the third returns the successful payload, with the
actually waited backoff delays 1000 ms and 2000 ms — not the 2000 ms and
4000 ms that the claim (and the code's own comment "2s, 4s, 8s")
advertises. -/
theorem callOpenRouter_backoff_one_two_seconds :
    callOpenRouter (some "key")
        (fun attempt =>
          if attempt < 2 then ApiResp.err 429 "rate limited"
          else ApiResp.ok "payload") 3
      = Except.ok ("payload", [1000, 2000]) ∧
    ([1000, 2000] : List Nat) ≠ [2000, 4000] := by
  exact ⟨rfl, by decide⟩

/-- C7 counterexample: a title whose first line begins with three stacked
dash markers keeps a leading dash after the cleanup, so the stored title can
start with a marker character. -/
theorem cleanTitle_keeps_marker_counterexample :
    cleanTitle "- - - Add" = "- Add" ∧
    ("- Add").data.head? = some '-' := by
  exact ⟨rfl, rfl⟩

/-- C7 amended: the cleanup collapses the title to its first line and strips
at most one leading bullet/dash marker before and one after; consequently
every cleaned title contains no newline, the input
`"- Add new feature\nSecond line"` normalizes to `"Add new feature"`, and a
first line opening with three markers retains one (`"- - - Add"` becomes
`"- Add"`). -/
theorem cleanTitle_first_line_marker_strip :
    (∀ t : String, '\n' ∉ (cleanTitle t).data) ∧
    cleanTitle "- Add new feature\nSecond line" = "Add new feature" ∧
    cleanTitle "- - - Add" = "- Add" := by
  refine ⟨?_, rfl, rfl⟩
  intro t h
  have h1 : '\n' ∈ trimChars (firstLineChars
      (trimChars (stripLeadMarker t.data))) :=
    mem_stripLeadMarker (mem_trimChars h)
  have h2 := List.mem_takeWhile_imp (mem_trimChars h1)
  simp at h2

/-- C9: the bulk reset step of regeneration deletes only the configured
repository's commit records: afterwards the store holds zero records for
that repository while every other repository's records survive, and
`regenerateAllCommits` run with nothing fetched returns exactly the
delete-step store. -/
theorem deleteAllForRepository_scoped (commits : List CommitRec)
    (repository : String)
    (jsonParse : String → Option (List (String × TitleDesc)))
    (batchContent : String) (now : Int) :
    (((deleteAllForRepository commits repository).2).filter
        (fun c => c.repository == repository)).length = 0 ∧
    (∀ c, c ∈ (deleteAllForRepository commits repository).2
        ↔ (c ∈ commits ∧ c.repository ≠ repository)) ∧
    regenerateAllCommits commits (some repository) [] jsonParse
        batchContent now
      = Except.ok
          ({ deleted := (deleteAllForRepository commits repository).1,
             fetched := 0, saved := 0, errors := [] },
           (deleteAllForRepository commits repository).2) := by
  refine ⟨?_, ?_, ?_⟩
  · rw [List.length_eq_zero, List.filter_eq_nil_iff]
    intro c hc
    rw [deleteAllForRepository] at hc
    simp only [List.mem_filter] at hc
    have h2 := hc.2
    rw [Bool.not_eq_true'] at h2
    intro he
    rw [he] at h2
    simp at h2
  · intro c
    rw [deleteAllForRepository]
    simp [List.mem_filter]
  · rfl

theorem updateSummary_getElem_ne (commits : List CommitRec) (j i : Nat)
    (hne : j ≠ i) (summary : Option String) (st : SummaryStatus) :
    (updateSummary commits j summary st)[i]? = commits[i]? := by
  unfold updateSummary
  cases commits[j]? with
  | none => rfl
  | some cj => exact List.getElem?_set_ne hne

theorem patchFirstVersion_status (commits : List CommitRec)
    (repository sha version : String) :
    ∀ i : Nat,
      ((patchFirstVersion commits repository sha version)[i]?).map
          (fun x => x.summaryStatus)
        = (commits[i]?).map (fun x => x.summaryStatus) := by
  induction commits with
  | nil => intro i; rfl
  | cons c cs ih =>
      intro i
      rw [patchFirstVersion]
      by_cases hm : (c.repository == repository && c.sha == sha) = true
      · rw [if_pos hm]
        cases i with
        | zero => simp
        | succ k => simp
      · rw [if_neg hm]
        cases i with
        | zero => simp
        | succ k => simpa using ih k

theorem linkCommitsToVersion_status (version repository : String) :
    ∀ (shas : List String) (commits : List CommitRec) (i : Nat),
      ((linkCommitsToVersion commits version shas repository)[i]?).map
          (fun x => x.summaryStatus)
        = (commits[i]?).map (fun x => x.summaryStatus) := by
  intro shas
  induction shas with
  | nil => intro commits i; rfl
  | cons s rest ih =>
      intro commits i
      have hstep := ih (patchFirstVersion commits repository s version) i
      have hfold :
          linkCommitsToVersion commits version (s :: rest) repository
            = linkCommitsToVersion
                (patchFirstVersion commits repository s version)
                version rest repository := by
        rfl
      rw [hfold, hstep, patchFirstVersion_status]

theorem saveCommits_store_extends (now : Int) :
    ∀ (events : List CommitEvent) (commits : List CommitRec),
      ∃ tl, (saveCommits commits now events).2.1 = commits ++ tl := by
  intro events
  induction events with
  | nil => intro commits; exact ⟨[], by simp [saveCommits]⟩
  | cons e rest ih =>
      intro commits
      rw [saveCommits]
      cases hf : findBySha commits e.sha e.repository with
      | some c =>
          obtain ⟨tl, htl⟩ := ih commits
          exact ⟨tl, htl⟩
      | none =>
          obtain ⟨tl, htl⟩ :=
            ih (insertCommit commits (pendingRecordOfEvent e now)).2
          refine ⟨[pendingRecordOfEvent e now] ++ tl, ?_⟩
          simpa [insertCommit] using htl

/-- C5 counterexample: running `summarizeCommit` on a commit whose
`summaryStatus` is `failed`, with a succeeding summarizer, moves it to
`completed` — a `failed` → `completed` transition, so `summaryStatus` does
not transition only out of `pending`. -/
theorem summarizeCommit_failed_to_completed :
    (sampleCommit SummaryStatus.failed none).summaryStatus
        = SummaryStatus.failed ∧
    ((summarizeCommit [sampleCommit SummaryStatus.failed none] 0
        (Except.ok "A new summary")).2).map (fun c => c.summaryStatus)
      = [SummaryStatus.completed] := by
  refine ⟨rfl, ?_⟩
  decide

/-- C5 amended: `summaryStatus` never leaves `completed` (though a `failed`
commit may be retried to `completed`): running `summarizeCommit` on a
`completed` commit performs no store mutation and returns an
`already_completed` outcome, and no operation — `summarizeCommit` on any
commit, `linkCommitsToVersion`, or `saveCommits` — moves a `completed`
commit to `pending` or `failed`. -/
theorem summaryStatus_completed_is_terminal (commits : List CommitRec)
    (i : Nat) (c : CommitRec) (hc : commits[i]? = some c)
    (hcomp : c.summaryStatus = SummaryStatus.completed) :
    (∀ api, summarizeCommit commits i api
        = (Except.ok ("already_completed", none), commits)) ∧
    (∀ j api, (((summarizeCommit commits j api).2)[i]?).map
        (fun x => x.summaryStatus) = some SummaryStatus.completed) ∧
    (∀ version shas repository,
        ((linkCommitsToVersion commits version shas repository)[i]?).map
          (fun x => x.summaryStatus) = some SummaryStatus.completed) ∧
    (∀ now events, (((saveCommits commits now events).2.1)[i]?).map
        (fun x => x.summaryStatus) = some SummaryStatus.completed) := by
  have hself : (commits[i]?).map (fun x => x.summaryStatus)
      = some SummaryStatus.completed := by
    rw [hc]
    simp [hcomp]
  refine ⟨?_, ?_, ?_, ?_⟩
  · intro api
    simp [summarizeCommit, getById, hc, hcomp]
  · intro j api
    unfold summarizeCommit
    cases hj : getById commits j with
    | none => simpa using hself
    | some cj =>
        dsimp only
        by_cases hcj : cj.summaryStatus = SummaryStatus.completed
        · rw [if_pos hcj]
          simpa using hself
        · have hne : j ≠ i := by
            intro he
            rw [he] at hj
            rw [getById, hc] at hj
            cases hj
            exact hcj hcomp
          rw [if_neg hcj]
          cases api with
          | ok content =>
              dsimp only
              by_cases hemp : (jsTrim content == "") = true
              · rw [if_pos hemp]
                dsimp only
                rw [updateSummary_getElem_ne commits j i hne]
                exact hself
              · rw [if_neg hemp]
                dsimp only
                rw [updateSummary_getElem_ne commits j i hne]
                exact hself
          | error e =>
              dsimp only
              rw [updateSummary_getElem_ne commits j i hne]
              exact hself
  · intro version shas repository
    rw [linkCommitsToVersion_status version repository shas commits i]
    exact hself
  · intro now events
    obtain ⟨tl, htl⟩ := saveCommits_store_extends now events commits
    have hlt : i < commits.length := by
      by_contra hge
      rw [List.getElem?_eq_none (Nat.le_of_not_lt hge)] at hc
      cases hc
    rw [htl, List.getElem?_append, if_pos hlt]
    exact hself

/-- C5 witness: the amended theorem instantiated on a one-element store
holding a `completed` commit. -/
theorem summaryStatus_completed_is_terminal_witness :
    ([sampleCommit SummaryStatus.completed none][0]?
        = some (sampleCommit SummaryStatus.completed none)) ∧
    (sampleCommit SummaryStatus.completed none).summaryStatus
        = SummaryStatus.completed ∧
    summarizeCommit [sampleCommit SummaryStatus.completed none] 0
        (Except.ok "S")
      = (Except.ok ("already_completed", none),
         [sampleCommit SummaryStatus.completed none]) :=
  ⟨rfl, rfl,
    (summaryStatus_completed_is_terminal
      [sampleCommit SummaryStatus.completed none] 0
      (sampleCommit SummaryStatus.completed none) rfl rfl).1
      (Except.ok "S")⟩

theorem hasSubstr_cons_elim {pat : List Char} {c : Char} {cs : List Char}
    (h : hasSubstr pat (c :: cs) = false) :
    pat.isPrefixOf (c :: cs) = false ∧ hasSubstr pat cs = false := by
  unfold hasSubstr at h
  rw [upToFirst] at h
  by_cases hp : pat.isPrefixOf (c :: cs) = true
  · rw [if_pos hp] at h
    simp at h
  · have hp2 : pat.isPrefixOf (c :: cs) = false := by
      revert hp
      cases pat.isPrefixOf (c :: cs) <;> simp
    rw [if_neg hp] at h
    refine ⟨hp2, ?_⟩
    unfold hasSubstr
    cases hu : upToFirst pat cs with
    | none => rfl
    | some v =>
        rw [hu] at h
        simp at h

theorem upToFirst_append_self {j : List Char}
    (h : hasSubstr "\n```".data j = false) :
    upToFirst "\n```".data (j ++ "\n```".data) = some j := by
  induction j with
  | nil => decide
  | cons c cs ih =>
      obtain ⟨hp, hcs⟩ := hasSubstr_cons_elim h
      by_cases hpre :
          ("\n```".data.isPrefixOf ((c :: cs) ++ "\n```".data)) = true
      · exfalso
        have hprefix := List.isPrefixOf_iff_prefix.mp hpre
        by_cases hlen : 4 ≤ (c :: cs).length
        · rw [List.prefix_iff_eq_take,
            show ("\n```".data : List Char).length = 4 from by decide,
            List.take_append_of_le_length hlen] at hprefix
          have hpre2 : ("\n```".data.isPrefixOf (c :: cs)) = true := by
            rw [List.isPrefixOf_iff_prefix, hprefix]
            exact List.take_prefix _ _
          rw [hpre2] at hp
          cases hp
        · cases cs with
          | nil => simp [List.isPrefixOf] at hpre
          | cons a cs2 =>
              cases cs2 with
              | nil => simp [List.isPrefixOf] at hpre
              | cons b cs3 =>
                  cases cs3 with
                  | nil => simp [List.isPrefixOf] at hpre
                  | cons d cs4 =>
                      apply hlen
                      simp only [List.length_cons]
                      omega
      · rw [List.cons_append, upToFirst, if_neg (by
          rw [List.cons_append] at hpre
          exact hpre), ih hcs]
        rfl

theorem firstFenceMatch_head {c : Char} {cs cap : List Char}
    (h : fenceMatchAt (c :: cs) = some cap) :
    firstFenceMatch (c :: cs) = some cap := by
  rw [firstFenceMatch, h]

theorem dropWhile_eq_self_of_take1 {l : List Char}
    (h : ∀ x ∈ l.take 1, jsWhitespace x = false) :
    l.dropWhile jsWhitespace = l := by
  cases l with
  | nil => rfl
  | cons x xs =>
      have hx := h x (by simp)
      rw [List.dropWhile_cons, hx]
      simp

theorem trimChars_eq_self {l : List Char}
    (h1 : ∀ x ∈ l.take 1, jsWhitespace x = false)
    (h2 : ∀ x ∈ l.reverse.take 1, jsWhitespace x = false) :
    trimChars l = l := by
  unfold trimChars
  rw [dropWhile_eq_self_of_take1 h1, dropWhile_eq_self_of_take1 h2,
    List.reverse_reverse]

theorem stripFence_json_wrapped {J : List Char}
    (hsub : hasSubstr "\n```".data J = false) :
    stripFence (("```json\n".data ++ J) ++ "\n```".data) = J := by
  have hassoc : (("```json\n".data ++ J) ++ "\n```".data)
      = "```json\n".data ++ (J ++ "\n```".data) := by
    rw [List.append_assoc]
  have hpre3 :
      ("```".data.isPrefixOf (("```json\n".data ++ J) ++ "\n```".data))
        = true := by
    rw [List.isPrefixOf_iff_prefix, hassoc]
    exact (List.isPrefixOf_iff_prefix.mp
      (show ("```".data.isPrefixOf "```json\n".data) = true from by
        decide)).trans (List.prefix_append _ _)
  have hdrop3 : ((("```json\n".data ++ J) ++ "\n```".data)).drop 3
      = "json\n".data ++ (J ++ "\n```".data) := by
    rw [hassoc, List.drop_append_of_le_length (by decide),
      show ("```json\n".data.drop 3) = "json\n".data from by decide]
  have hjson :
      ("json\n".data.isPrefixOf ("json\n".data ++ (J ++ "\n```".data)))
        = true := by
    rw [List.isPrefixOf_iff_prefix]
    exact List.prefix_append _ _
  have hdrop5 : ("json\n".data ++ (J ++ "\n```".data)).drop 5
      = J ++ "\n```".data := by
    rw [show (5 : Nat) = ("json\n".data : List Char).length from by decide,
      List.drop_left]
  have hmatch : fenceMatchAt (("```json\n".data ++ J) ++ "\n```".data)
      = some J := by
    unfold fenceMatchAt
    rw [if_pos hpre3]
    dsimp only
    rw [hdrop3, if_pos hjson, hdrop5, upToFirst_append_self hsub]
  have hne : (("```json\n".data ++ J) ++ "\n```".data) ≠ [] := by
    simp
  unfold stripFence
  rw [if_pos hpre3]
  cases hl : (("```json\n".data ++ J) ++ "\n```".data) with
  | nil => exact absurd hl hne
  | cons c cs =>
      rw [← hl, hl, firstFenceMatch_head (hl ▸ hmatch)]

theorem stripFence_plain_wrapped {J : List Char}
    (hsub : hasSubstr "\n```".data J = false) :
    stripFence (("```\n".data ++ J) ++ "\n```".data) = J := by
  have hassoc : (("```\n".data ++ J) ++ "\n```".data)
      = "```\n".data ++ (J ++ "\n```".data) := by
    rw [List.append_assoc]
  have hpre3 :
      ("```".data.isPrefixOf (("```\n".data ++ J) ++ "\n```".data))
        = true := by
    rw [List.isPrefixOf_iff_prefix, hassoc]
    exact (List.isPrefixOf_iff_prefix.mp
      (show ("```".data.isPrefixOf "```\n".data) = true from by
        decide)).trans (List.prefix_append _ _)
  have hdrop3 : ((("```\n".data ++ J) ++ "\n```".data)).drop 3
      = "\n".data ++ (J ++ "\n```".data) := by
    rw [hassoc, List.drop_append_of_le_length (by decide),
      show ("```\n".data.drop 3) = "\n".data from by decide]
  have hjson :
      ("json\n".data.isPrefixOf ("\n".data ++ (J ++ "\n```".data)))
        = false := by
    simp [List.isPrefixOf]
  have hnl :
      ("\n".data.isPrefixOf ("\n".data ++ (J ++ "\n```".data))) = true := by
    rw [List.isPrefixOf_iff_prefix]
    exact List.prefix_append _ _
  have hdrop1 : ("\n".data ++ (J ++ "\n```".data)).drop 1
      = J ++ "\n```".data := by
    rw [show (1 : Nat) = ("\n".data : List Char).length from by decide,
      List.drop_left]
  have hmatch : fenceMatchAt (("```\n".data ++ J) ++ "\n```".data)
      = some J := by
    unfold fenceMatchAt
    rw [if_pos hpre3]
    dsimp only
    rw [hdrop3, hjson]
    dsimp only
    rw [if_pos hnl, hdrop1, upToFirst_append_self hsub]
    simp
  have hne : (("```\n".data ++ J) ++ "\n```".data) ≠ [] := by
    simp
  unfold stripFence
  rw [if_pos hpre3]
  cases hl : (("```\n".data ++ J) ++ "\n```".data) with
  | nil => exact absurd hl hne
  | cons c cs =>
      rw [← hl, hl, firstFenceMatch_head (hl ▸ hmatch)]

theorem parseBatchContent_eq {content : String} {out : List Char}
    (htrim : trimChars content.data = content.data)
    (hne : content.data ≠ [])
    (hstrip : stripFence content.data = out) :
    parseBatchContent content = Except.ok (String.mk out) := by
  show (if (jsTrim content == "") = true then
      Except.error "Empty response returned from OpenRouter"
    else Except.ok (String.mk (stripFence (jsTrim content).data)))
    = Except.ok (String.mk out)
  rw [show jsTrim content = String.mk (trimChars content.data) from rfl,
    htrim, show String.mk content.data = content from rfl,
    if_neg (fun hbeq =>
      hne (congrArg String.data (eq_of_beq hbeq))), hstrip]

/-- C8: batch-summary parsing tolerates the model wrapping its JSON object
in a fenced code block: for a JSON object text `J` (trimmed, nonempty, not
itself starting with a fence and containing no newline-plus-close-fence
substring, as no valid JSON object rendering does), the response `J` wrapped
in a ```-fence or a ```json-fence reaches `JSON.parse` as exactly `J`, the
same text the unwrapped response reaches it as — so both parse to the same
per-sha summary mapping under any parser. -/
theorem batchSummarize_fence_transparent (J : String)
    (hsub : hasSubstr "\n```".data J.data = false)
    (htrim : trimChars J.data = J.data)
    (hne : J.data ≠ [])
    (hnofence : ("```".data.isPrefixOf J.data) = false) :
    parseBatchContent ("```json\n" ++ J ++ "\n```") = Except.ok J ∧
    parseBatchContent ("```\n" ++ J ++ "\n```") = Except.ok J ∧
    parseBatchContent J = Except.ok J ∧
    ∀ jsonParse : String → Option (List (String × TitleDesc)),
      batchSummarizeCommits jsonParse ("```json\n" ++ J ++ "\n```")
          = batchSummarizeCommits jsonParse J ∧
      batchSummarizeCommits jsonParse ("```\n" ++ J ++ "\n```")
          = batchSummarizeCommits jsonParse J := by
  have hWdata1 : ("```json\n" ++ J ++ "\n```").data
      = ("```json\n".data ++ J.data) ++ "\n```".data := by
    rw [String.data_append, String.data_append]
  have hWdata2 : ("```\n" ++ J ++ "\n```").data
      = ("```\n".data ++ J.data) ++ "\n```".data := by
    rw [String.data_append, String.data_append]
  have htrim1 : trimChars (("```json\n" ++ J ++ "\n```").data)
      = ("```json\n" ++ J ++ "\n```").data := by
    rw [hWdata1]
    apply trimChars_eq_self
    · rw [List.append_assoc, List.take_append_of_le_length (by decide)]
      decide
    · rw [List.reverse_append, List.take_append_of_le_length (by decide)]
      decide
  have htrim2 : trimChars (("```\n" ++ J ++ "\n```").data)
      = ("```\n" ++ J ++ "\n```").data := by
    rw [hWdata2]
    apply trimChars_eq_self
    · rw [List.append_assoc, List.take_append_of_le_length (by decide)]
      decide
    · rw [List.reverse_append, List.take_append_of_le_length (by decide)]
      decide
  have hne1 : ("```json\n" ++ J ++ "\n```").data ≠ [] := by
    rw [hWdata1]
    simp
  have hne2 : ("```\n" ++ J ++ "\n```").data ≠ [] := by
    rw [hWdata2]
    simp
  have hpc1 : parseBatchContent ("```json\n" ++ J ++ "\n```")
      = Except.ok J := by
    exact parseBatchContent_eq htrim1 hne1
      (by rw [hWdata1]; exact stripFence_json_wrapped hsub)
  have hpc2 : parseBatchContent ("```\n" ++ J ++ "\n```")
      = Except.ok J := by
    exact parseBatchContent_eq htrim2 hne2
      (by rw [hWdata2]; exact stripFence_plain_wrapped hsub)
  have hstrip3 : stripFence J.data = J.data := by
    unfold stripFence
    rw [if_neg (by simp [hnofence])]
  have hpc3 : parseBatchContent J = Except.ok J :=
    parseBatchContent_eq htrim hne hstrip3
  refine ⟨hpc1, hpc2, hpc3, ?_⟩
  intro jsonParse
  constructor
  · unfold batchSummarizeCommits
    rw [hpc1, hpc3]
  · unfold batchSummarizeCommits
    rw [hpc2, hpc3]

/-- C8 witness: the fence-transparency theorem instantiated on the concrete
JSON object text `\x7b"a":"b"\x7d`. -/
theorem batchSummarize_fence_transparent_witness :
    hasSubstr "\n```".data ("\x7b\"a\":\"b\"\x7d").data = false ∧
    parseBatchContent ("```json\n" ++ "\x7b\"a\":\"b\"\x7d" ++ "\n```")
      = Except.ok "\x7b\"a\":\"b\"\x7d" :=
  ⟨by decide,
   (batchSummarize_fence_transparent "\x7b\"a\":\"b\"\x7d" (by decide)
     (by decide) (by decide) (by decide)).1⟩

theorem regenerateSaveLoop_nil_summaries (repository : String) (now : Int) :
    ∀ (fetched : List FetchedCommit) (commits : List CommitRec),
      regenerateSaveLoop [] repository now fetched commits
        = (0,
           fetched.map
             (fun c => (c.sha, "Summary not found in batch response")),
           commits ++ fetched.map
             (fun c => regeneratedRecord repository now c none)) := by
  intro fetched
  induction fetched with
  | nil =>
      intro commits
      simp [regenerateSaveLoop]
  | cons c rest ih =>
      intro commits
      simp only [regenerateSaveLoop, List.find?_nil, Option.map_none',
        insertCommit]
      rw [ih]
      simp [List.append_assoc]

/-- C6: when the batch summarization fails (unparsable JSON or an empty
response), `regenerateAllCommits` does not abort: it still inserts every
fetched commit — each with `summaryStatus = failed` and no title or summary
— records the batch error first in the returned error list followed by a
per-sha error for every fetched commit, and reports zero saves. -/
theorem regenerateAllCommits_batch_failure (commits : List CommitRec)
    (repository : String) (fetched : List FetchedCommit)
    (jsonParse : String → Option (List (String × TitleDesc)))
    (batchContent : String) (now : Int) (e : String)
    (hfail : batchSummarizeCommits jsonParse batchContent = Except.error e)
    (hnonempty : 0 < fetched.length) :
    regenerateAllCommits commits (some repository) fetched jsonParse
        batchContent now
      = Except.ok
          ({ deleted := (deleteAllForRepository commits repository).1,
             fetched := fetched.length, saved := 0,
             errors := ("batch", e) :: fetched.map
               (fun c => (c.sha, "Summary not found in batch response")) },
           (deleteAllForRepository commits repository).2
             ++ fetched.map
                 (fun c => regeneratedRecord repository now c none)) ∧
    ∀ r ∈ fetched.map (fun c => regeneratedRecord repository now c none),
      r.summaryStatus = SummaryStatus.failed ∧ r.title = none ∧
        r.summary = none := by
  constructor
  · have hgt : (fetched.length > 0) = True := eq_true hnonempty
    simp only [regenerateAllCommits, hgt, if_true, hfail]
    rw [regenerateSaveLoop_nil_summaries]
    rfl
  · intro r hr
    rw [List.mem_map] at hr
    obtain ⟨c, _, rfl⟩ := hr
    exact ⟨rfl, rfl, rfl⟩

/-- C6 witness: the batch-failure theorem instantiated with one fetched
commit and an empty model response. -/
theorem regenerateAllCommits_batch_failure_witness :
    batchSummarizeCommits (fun _ => none) ""
        = Except.error "Empty response returned from OpenRouter" ∧
    0 < ([({ sha := "abc1234def", message := "m", author := "a",
             authorEmail := "e", url := "u", timestamp := 1 }
          : FetchedCommit)]).length ∧
    regenerateAllCommits [] (some "owner/repo")
        [{ sha := "abc1234def", message := "m", author := "a",
           authorEmail := "e", url := "u", timestamp := 1 }]
        (fun _ => none) "" 5
      = Except.ok
          ({ deleted := (deleteAllForRepository [] "owner/repo").1,
             fetched := 1, saved := 0,
             errors := ("batch", "Empty response returned from OpenRouter")
               :: [({ sha := "abc1234def", message := "m", author := "a",
                      authorEmail := "e", url := "u", timestamp := 1 }
                    : FetchedCommit)].map
                 (fun c => (c.sha, "Summary not found in batch response")) },
           (deleteAllForRepository [] "owner/repo").2
             ++ [({ sha := "abc1234def", message := "m", author := "a",
                    authorEmail := "e", url := "u", timestamp := 1 }
                  : FetchedCommit)].map
                 (fun c => regeneratedRecord "owner/repo" 5 c none)) :=
  ⟨rfl, by decide,
   (regenerateAllCommits_batch_failure [] "owner/repo"
     [{ sha := "abc1234def", message := "m", author := "a",
        authorEmail := "e", url := "u", timestamp := 1 }]
     (fun _ => none) "" 5 "Empty response returned from OpenRouter"
     rfl (by decide)).1⟩

theorem patchFirstVersion_getElem_of_not_match (commits : List CommitRec)
    (repository sha version : String) (i : Nat) (c : CommitRec)
    (hc : commits[i]? = some c)
    (hno : (c.repository == repository && c.sha == sha) = false) :
    (patchFirstVersion commits repository sha version)[i]? = some c := by
  induction commits generalizing i with
  | nil => cases i <;> simp at hc
  | cons x xs ih =>
      rw [patchFirstVersion]
      by_cases hm : (x.repository == repository && x.sha == sha) = true
      · rw [if_pos hm]
        cases i with
        | zero =>
            exfalso
            simp only [List.getElem?_cons_zero, Option.some.injEq] at hc
            rw [hc] at hm
            rw [hm] at hno
            cases hno
        | succ k => simpa using hc
      · rw [if_neg hm]
        cases i with
        | zero => simpa using hc
        | succ k =>
            have := ih k (by simpa using hc)
            simpa using this

theorem linkCommitsToVersion_getElem_of_not_match
    {version repository : String} :
    ∀ (shas : List String) (commits : List CommitRec) (i : Nat)
      (c : CommitRec),
      commits[i]? = some c →
      (∀ s ∈ shas, (c.repository == repository && c.sha == s) = false) →
      (linkCommitsToVersion commits version shas repository)[i]? = some c := by
  intro shas
  induction shas with
  | nil =>
      intro commits i c hc _
      exact hc
  | cons s rest ih =>
      intro commits i c hc hno
      have hstep := patchFirstVersion_getElem_of_not_match commits
        repository s version i c hc (hno s (by simp))
      have hfold : linkCommitsToVersion commits version (s :: rest) repository
          = linkCommitsToVersion
              (patchFirstVersion commits repository s version)
              version rest repository := rfl
      rw [hfold]
      exact ih _ i c hstep (fun s2 hs2 => hno s2 (by simp [hs2]))

theorem getCommitsBetweenTags_eq (db : DB)
    (fetchBetween : Option String → List String)
    (currentTagSha repository : String) :
    getCommitsBetweenTags db fetchBetween currentTagSha repository
      = (getCommitsByRepository db repository).filter
          (fun c =>
            (fetchBetween (previousTagSha
              (getReleasesByRepository db repository) currentTagSha)).contains
                c.sha
              && versionUnset c) := rfl

/-- C2: once a commit carries a version (in the code's own sense: its
`version` field is a non-falsy string), re-running release reconciliation
for any tag leaves its record — and in particular its `version` — entirely
unchanged, provided `(repository, sha)` identifies commits uniquely in the
store (the data-model identity invariant); hence each commit belongs to at
most one release. -/
theorem syncRelease_preserves_assigned_versions (db : DB)
    (fetchBetween : Option String → List String) (version sha : String)
    (date : Int) (repository : String) (i : Nat) (c : CommitRec)
    (hU : List.Pairwise
      (fun a b => ¬(a.repository = b.repository ∧ a.sha = b.sha)) db.commits)
    (hc : db.commits[i]? = some c)
    (hset : versionSet c = true) :
    ((syncRelease db fetchBetween version sha date repository).2.commits)[i]?
      = some c := by
  have hcommits :
      (syncRelease db fetchBetween version sha date repository).2.commits
        = linkCommitsToVersion db.commits version
            ((getCommitsBetweenTags db fetchBetween sha repository).map
              (fun x => x.sha)) repository := rfl
  rw [hcommits]
  apply linkCommitsToVersion_getElem_of_not_match _ _ i c hc
  intro s hs
  by_contra hmatch
  have hm : (c.repository == repository && c.sha == s) = true := by
    revert hmatch
    cases c.repository == repository && c.sha == s <;> simp
  rw [List.mem_map] at hs
  obtain ⟨c2, hc2mem, hc2sha⟩ := hs
  rw [getCommitsBetweenTags_eq] at hc2mem
  have hc2f := List.mem_filter.mp hc2mem
  have hc2unset : versionUnset c2 = true := by
    have := hc2f.2
    rw [Bool.and_eq_true] at this
    exact this.2
  have hc2repo : c2.repository = repository := by
    have : c2 ∈ (db.commits.filter
        (fun r => r.repository == repository)).reverse := hc2f.1
    rw [List.mem_reverse, List.mem_filter] at this
    exact eq_of_beq this.2
  have hc2dbmem : c2 ∈ db.commits := by
    have : c2 ∈ (db.commits.filter
        (fun r => r.repository == repository)).reverse := hc2f.1
    rw [List.mem_reverse, List.mem_filter] at this
    exact this.1
  rw [Bool.and_eq_true] at hm
  have hcrepo : c.repository = repository := eq_of_beq hm.1
  have hcsha : c.sha = c2.sha := hc2sha ▸ eq_of_beq hm.2
  obtain ⟨j, hj, hj2⟩ := List.mem_iff_getElem.mp hc2dbmem
  obtain ⟨hi, hi2⟩ := List.getElem?_eq_some_iff.mp hc
  have hpair := List.pairwise_iff_getElem.mp hU
  by_cases hij : i = j
  · subst hij
    have hcc2 : c = c2 := hi2.symm.trans hj2
    rw [versionSet, Bool.not_eq_true'] at hset
    rw [hcc2, hc2unset] at hset
    exact Bool.noConfusion hset
  · have hsame : c.repository = c2.repository ∧ c.sha = c2.sha :=
      ⟨by rw [hcrepo, hc2repo], hcsha⟩
    rcases Nat.lt_or_ge i j with hlt | hge
    · have h := hpair i j hi hj hlt
      rw [hi2, hj2] at h
      exact h hsame
    · have hlt2 : j < i := Nat.lt_of_le_of_ne hge (fun he => hij he.symm)
      have h := hpair j i hj hi hlt2
      rw [hi2, hj2] at h
      exact h ⟨hsame.1.symm, hsame.2.symm⟩

/-- C2 witness: a store holding a single commit already assigned to
`v1.0`; re-running reconciliation with a range that contains its sha leaves
the record unchanged. -/
theorem syncRelease_preserves_assigned_versions_witness :
    List.Pairwise
      (fun a b => ¬(a.repository = b.repository ∧ a.sha = b.sha))
      ([sampleCommit SummaryStatus.completed (some "v1.0")]) ∧
    versionSet (sampleCommit SummaryStatus.completed (some "v1.0")) = true ∧
    ((syncRelease
        { commits := [sampleCommit SummaryStatus.completed (some "v1.0")],
          releases := [] }
        (fun _ => ["abc1234def"]) "v1.1" "ffff" 300
        "owner/repo").2.commits)[0]?
      = some (sampleCommit SummaryStatus.completed (some "v1.0")) :=
  ⟨by simp, by decide,
   syncRelease_preserves_assigned_versions
     { commits := [sampleCommit SummaryStatus.completed (some "v1.0")],
       releases := [] }
     (fun _ => ["abc1234def"]) "v1.1" "ffff" 300 "owner/repo" 0
     (sampleCommit SummaryStatus.completed (some "v1.0"))
     (by simp) rfl (by decide)⟩

theorem dateDesc_trans (a b c : ReleaseRec)
    (hab : decide (b.date ≤ a.date) = true)
    (hbc : decide (c.date ≤ b.date) = true) :
    decide (c.date ≤ a.date) = true := by
  simp only [decide_eq_true_eq] at *
  exact le_trans hbc hab

theorem dateDesc_total (a b : ReleaseRec) :
    (decide (b.date ≤ a.date) || decide (a.date ≤ b.date)) = true := by
  simp only [Bool.or_eq_true, decide_eq_true_eq]
  exact le_total b.date a.date

theorem find?_sorted_max {p : ReleaseRec → Bool} {l : List ReleaseRec}
    {r : ReleaseRec}
    (hsorted : List.Pairwise
      (fun a b => decide (b.date ≤ a.date) = true) l)
    (hfind : l.find? p = some r) :
    ∀ x ∈ l, p x = true → x.date ≤ r.date := by
  induction l with
  | nil => cases hfind
  | cons a tl ih =>
      by_cases hpa : p a = true
      · rw [List.find?_cons_of_pos tl hpa] at hfind
        injection hfind with hra
        intro x hx hpx
        rcases List.mem_cons.mp hx with rfl | hxtl
        · rw [hra]
        · have hle := (List.pairwise_cons.mp hsorted).1 x hxtl
          rw [decide_eq_true_eq] at hle
          rw [hra] at hle
          exact hle
      · rw [List.find?_cons_of_neg tl hpa] at hfind
        intro x hx hpx
        rcases List.mem_cons.mp hx with rfl | hxtl
        · exact absurd hpx hpa
        · exact ih (List.pairwise_cons.mp hsorted).2 hfind x hxtl hpx

/-- C1: release reconciliation selects exactly the stored commits of the
configured repository whose sha is in the SHA set returned by the external
compare/range oracle — queried at the previous tag, i.e. the `tagSha` of a
most recent prior release by `date` among the repository's releases
excluding any whose `tagSha` equals the current tag, with `none` (all
commits reachable from the current tag) when no such release exists — and
whose `version` is still unset; the returned `commitCount` is the number of
commits so selected.  The hypotheses exclude the degenerate empty-string
version and empty-string `tagSha`, which JavaScript truthiness would
conflate with absence. -/
theorem syncRelease_range_query_selection (db : DB)
    (fetchBetween : Option String → List String) (version sha : String)
    (date : Int) (repository : String)
    (hV : ∀ c ∈ db.commits, c.version ≠ some "")
    (hT : ∀ r ∈ db.releases, r.tagSha ≠ "") :
    (∀ c, c ∈ getCommitsBetweenTags db fetchBetween sha repository
        ↔ (c ∈ db.commits ∧ c.repository = repository ∧
           (fetchBetween (previousTagSha
             (getReleasesByRepository db repository) sha)).contains c.sha
             = true ∧
           c.version = none)) ∧
    (syncRelease db fetchBetween version sha date repository).1.commitCount
      = (db.commits.filter (fun c =>
          c.repository == repository
            && ((fetchBetween (previousTagSha
                (getReleasesByRepository db repository) sha)).contains c.sha
              && c.version.isNone))).length ∧
    (∀ t, previousTagSha (getReleasesByRepository db repository) sha
          = some t →
        ∃ r ∈ db.releases, r.repository = repository ∧ r.tagSha = t ∧
          r.tagSha ≠ sha ∧
          ∀ r2 ∈ db.releases, r2.repository = repository →
            r2.tagSha ≠ sha → r2.date ≤ r.date) ∧
    (previousTagSha (getReleasesByRepository db repository) sha = none →
        ∀ r ∈ db.releases, r.repository = repository → r.tagSha = sha) := by
  have hselect : ∀ c,
      c ∈ getCommitsBetweenTags db fetchBetween sha repository
        ↔ (c ∈ db.commits ∧ c.repository = repository ∧
           (fetchBetween (previousTagSha
             (getReleasesByRepository db repository) sha)).contains c.sha
             = true ∧
           c.version = none) := by
    intro c
    rw [getCommitsBetweenTags_eq, List.mem_filter, getCommitsByRepository,
      List.mem_reverse, List.mem_filter]
    constructor
    · rintro ⟨⟨hmem, hrepo⟩, hcond⟩
      rw [Bool.and_eq_true] at hcond
      refine ⟨hmem, eq_of_beq hrepo, hcond.1, ?_⟩
      have hv := hV c hmem
      have hunset := hcond.2
      rw [versionUnset] at hunset
      cases hver : c.version with
      | none => rfl
      | some s =>
          rw [hver] at hunset
          exact absurd (by rw [eq_of_beq hunset] at hver; exact hver) hv
    · rintro ⟨hmem, hrepo, hcont, hver⟩
      refine ⟨⟨hmem, by rw [hrepo]; exact beq_self_eq_true repository⟩, ?_⟩
      rw [Bool.and_eq_true]
      refine ⟨hcont, ?_⟩
      rw [versionUnset, hver]
  refine ⟨hselect, ?_, ?_, ?_⟩
  · have h0 : (syncRelease db fetchBetween version sha date
        repository).1.commitCount
          = (getCommitsBetweenTags db fetchBetween sha repository).length :=
      rfl
    rw [h0, getCommitsBetweenTags_eq, getCommitsByRepository,
      List.filter_reverse, List.length_reverse, List.filter_filter]
    rw [List.filter_congr (fun c hc => ?_)]
    have hv := hV c hc
    cases hver : c.version with
    | none => simp [versionUnset, hver, Bool.and_comm]
    | some s =>
        have hs : (s == "") = false := by
          rw [beq_eq_false_iff_ne]
          intro he
          rw [he] at hver
          exact hv hver
        simp [versionUnset, hver, hs]
  · intro t hprev
    rw [previousTagSha] at hprev
    cases hfind : (sortReleasesByDateDesc
        (getReleasesByRepository db repository)).find?
          (fun r => r.tagSha != sha) with
    | none =>
        rw [hfind] at hprev
        simp at hprev
    | some r =>
        rw [hfind] at hprev
        have hrmem : r ∈ db.releases ∧ r.repository = repository := by
          have h1 := List.mem_of_find?_eq_some hfind
          rw [sortReleasesByDateDesc, List.mem_mergeSort,
            getReleasesByRepository, List.mem_reverse,
            List.mem_filter] at h1
          exact ⟨h1.1, eq_of_beq h1.2⟩
        have hp := @List.find?_some ReleaseRec
          (fun x => x.tagSha != sha) r
          (sortReleasesByDateDesc (getReleasesByRepository db repository))
          hfind
        have hne : r.tagSha ≠ sha := bne_iff_ne.mp hp
        have hne2 : (r.tagSha == "") = false := by
          rw [beq_eq_false_iff_ne]
          exact hT r hrmem.1
        dsimp only at hprev
        rw [hne2] at hprev
        simp only [Bool.false_eq_true, if_false, Option.some.injEq] at hprev
        refine ⟨r, hrmem.1, hrmem.2, hprev, hne, ?_⟩
        intro r2 hr2 hrepo2 hne3
        have hsorted := List.sorted_mergeSort dateDesc_trans dateDesc_total
          (getReleasesByRepository db repository)
        have hr2mem : r2 ∈ sortReleasesByDateDesc
            (getReleasesByRepository db repository) := by
          rw [sortReleasesByDateDesc, List.mem_mergeSort,
            getReleasesByRepository, List.mem_reverse, List.mem_filter]
          exact ⟨hr2, by rw [hrepo2]; exact beq_self_eq_true repository⟩
        exact find?_sorted_max hsorted hfind r2 hr2mem (bne_iff_ne.mpr hne3)
  · intro hprev r hr hrepo
    rw [previousTagSha] at hprev
    cases hfind : (sortReleasesByDateDesc
        (getReleasesByRepository db repository)).find?
          (fun x => x.tagSha != sha) with
    | some x =>
        rw [hfind] at hprev
        have hne2 : (x.tagSha == "") = false := by
          rw [beq_eq_false_iff_ne]
          apply hT x
          have h1 := List.mem_of_find?_eq_some hfind
          rw [sortReleasesByDateDesc, List.mem_mergeSort,
            getReleasesByRepository, List.mem_reverse,
            List.mem_filter] at h1
          exact h1.1
        dsimp only at hprev
        rw [hne2] at hprev
        simp at hprev
    | none =>
        have hall := List.find?_eq_none.mp hfind
        have hrmem : r ∈ sortReleasesByDateDesc
            (getReleasesByRepository db repository) := by
          rw [sortReleasesByDateDesc, List.mem_mergeSort,
            getReleasesByRepository, List.mem_reverse, List.mem_filter]
          exact ⟨hr, by rw [hrepo]; exact beq_self_eq_true repository⟩
        have := hall r hrmem
        rw [Bool.not_eq_true, bne_eq_false_iff_eq] at this
        exact this

/-- C1 witness: one repository release `v1.0` and one stored unassigned
commit whose sha the compare oracle reports; the selection count is 1. -/
theorem syncRelease_range_query_selection_witness :
    (∀ c ∈ ([sampleCommit SummaryStatus.pending none]),
        c.version ≠ some "") ∧
    (∀ r ∈ ([({ version := "v1.0", date := 100, tagSha := "aaa",
                repository := "owner/repo" } : ReleaseRec)]),
        r.tagSha ≠ "") ∧
    (syncRelease
        { commits := [sampleCommit SummaryStatus.pending none],
          releases := [{ version := "v1.0", date := 100, tagSha := "aaa",
                         repository := "owner/repo" }] }
        (fun _ => ["abc1234def"]) "v1.1" "ffff" 300
        "owner/repo").1.commitCount
      = (([sampleCommit SummaryStatus.pending none]).filter (fun c =>
          c.repository == "owner/repo"
            && (((fun _ : Option String => ["abc1234def"])
                (previousTagSha
                  (getReleasesByRepository
                    { commits := [sampleCommit SummaryStatus.pending none],
                      releases := [{ version := "v1.0", date := 100,
                                     tagSha := "aaa",
                                     repository := "owner/repo" }] }
                    "owner/repo") "ffff")).contains c.sha
              && c.version.isNone))).length :=
  ⟨by decide, by decide,
   (syncRelease_range_query_selection
     { commits := [sampleCommit SummaryStatus.pending none],
       releases := [{ version := "v1.0", date := 100, tagSha := "aaa",
                      repository := "owner/repo" }] }
     (fun _ => ["abc1234def"]) "v1.1" "ffff" 300 "owner/repo"
     (by decide) (by decide)).2.1⟩

end ChangeBot
